import Mathlib

/-!
# Verification of the pecel file-combiner pipeline

Shallow embedding of `cmd/main/main.go` of the `pecel` repository: the
predicate filter (`shouldProcessFile`, `isHidden`), the discovery walker
(the `filepath.Walk` callback in `main`), the file ingestor
(`processSingleFile`), the sequential and parallel execution strategies
(`processFilesSequential`, `processFilesParallel`), the text and JSON
serializers (`writeTextOutput`, `writeJSONOutput`, `writeOutput`) and the
fatal-configuration validation performed by `main` before any work starts
(`validateDirectory`, `validateFilePath`, `validateExtensions`, regex
compilation).

Modelling conventions:
* Go `string` values are Lean `String`s; Go `len` on strings (UTF-8 byte
  count) is modelled by `goLen`.
* Go `int`/`int64` counters and sizes are Lean `Int`s (no overflow is
  reachable for the quantities involved, so plain integers are faithful).
* The filesystem is explicit data: a directory tree (`FsTree`) for the
  walker, and partial maps `statFs`/`readFs` for `os.Stat`/`os.ReadFile`
  during ingestion (`none` models a failing call).
* Compiled regular expressions are opaque matchers `String → Bool`; a
  `none` value models the absence of a pattern, and regex compilation is
  an opaque partial function `String → Option (String → Bool)`.
* `float64` appears only in `Stats.Duration`, which every claim ignores;
  it is modelled at the precision the renderers print (`%.2f`) as a count
  of hundredths of a second.
-/

/-- Go `len(s)` for a string: the UTF-8 byte length. -/
def goLen (s : String) : Int :=
  Int.ofNat ((s.data.map Char.utf8Size).sum)

/-- `strings.Repeat(c, n)` for a single-character string `c`. -/
def strRepeat (c : Char) (n : Nat) : String :=
  String.mk (List.replicate n c)

/-- `strings.HasPrefix(s, p)`, via the character lists of the two
strings. -/
def strHasPrefix (p s : String) : Bool :=
  List.isPrefixOf p.data s.data

/-- `strings.TrimSpace(s)`: leading and trailing whitespace removed. -/
def strTrim (s : String) : String :=
  String.mk (((s.data.dropWhile Char.isWhitespace).reverse.dropWhile
    Char.isWhitespace).reverse)

/-- Model of `strings.EqualFold`: case-insensitive string equality
(simple case folding, character by character; for the ASCII extensions
this tool compares it coincides with Go's Unicode simple folding). -/
def strEqualFold (s t : String) : Bool :=
  s.data.map Char.toLower == t.data.map Char.toLower

/-- `filepath.Ext(path)`: the suffix beginning at the final dot in the
final element of the path, empty when there is no dot.  Transcribes Go's
backwards scan that stops at a path separator. -/
def filepathExtAux : List Char → List Char → String
  | [], _ => ""
  | c :: rest, acc =>
    if c = '/' then ""
    else if c = '.' then String.mk ('.' :: acc)
    else filepathExtAux rest (c :: acc)

/-- See `filepathExtAux`. -/
def filepathExt (path : String) : String :=
  filepathExtAux path.data.reverse []

/-- Split a character list at `/` separators (the list-level splitting
`filepath.Dir` needs). -/
def splitSlashAux : List Char → List Char → List (List Char)
  | [], acc => [acc.reverse]
  | c :: rest, acc =>
    if c = '/' then acc.reverse :: splitSlashAux rest []
    else splitSlashAux rest (c :: acc)

/-- `filepath.Dir(path)` restricted to cleaned slash-separated paths: all
but the last path element, `"."` when the path has no separator. -/
def filepathDir (path : String) : String :=
  let parts := splitSlashAux path.data []
  if parts.length ≤ 1 then "."
  else String.mk (List.intercalate ['/'] parts.dropLast)

/-- `filepath.Rel(base, target)` restricted to the lexical cases that
arise in this pipeline, where every target handed to it was produced by
walking the base directory: a target equal to the base maps to `"."`, a
target below the base loses the `base ++ "/"` portion, and anything else
is returned unchanged (mirroring `getRelativePath`'s fallback of
returning the original path when `filepath.Rel` errs). -/
def filepathRel (base target : String) : String :=
  if target = base then "."
  else if strHasPrefix (base ++ "/") target then
    String.mk (target.data.drop (base.data.length + 1))
  else target

/-- `getRelativePath(path, baseDir)` from main.go: `filepath.Rel` with the
original path as the fallback. -/
def getRelativePath (path baseDir : String) : String :=
  filepathRel baseDir path

/-- `isHidden(name)` from main.go: a leaf name starting with `.`, or
starting with `~` and longer than one byte. -/
def isHidden (name : String) : Bool :=
  strHasPrefix "." name || (strHasPrefix "~" name && goLen name > 1)

/-- The fields of the Go `Config` struct used by the pipeline core. -/
structure Config where
  inputDir : String
  outputFile : String
  extensions : List String
  excludeHidden : Bool
  maxFileSize : Int
  minFileSize : Int
  excludePattern : String
  includePattern : String
  outputFormat : String
  compress : Bool
  parallel : Int
  dryRun : Bool
deriving Repr

/-- The slice of `os.FileInfo` that `shouldProcessFile` consults: the leaf
name and the size in bytes. -/
structure FsFileInfo where
  name : String
  size : Int
deriving Repr, DecidableEq

/-- The Go `FileInfo` record produced by ingestion. -/
structure FileInfo where
  path : String
  size : Int
  modified : String
  content : String
  relativePath : String
deriving Repr, DecidableEq

/-- The Go `Stats` accumulator.  `durationHundredths` models the
`float64` `Duration` field at the two-decimal precision the renderers
print. -/
structure Stats where
  filesProcessed : Int
  directories : Int
  totalBytes : Int
  durationHundredths : Int
  outputSize : Int
deriving Repr, DecidableEq

/-- `shouldProcessFile(path, info, config, excludeRegex, includeRegex)`
from main.go, transcribed clause for clause: hidden check, max-size
check, min-size check, extension allow-list, exclude pattern, include
pattern, in that order, short-circuiting on the first failure. -/
def shouldProcessFile (path : String) (info : FsFileInfo) (config : Config)
    (excludeRegex includeRegex : Option (String → Bool)) : Bool :=
  if config.excludeHidden && isHidden info.name then false
  else if config.maxFileSize > 0 && info.size > config.maxFileSize then false
  else if config.minFileSize > 0 && info.size < config.minFileSize then false
  else if config.extensions.length > 0 &&
      !(config.extensions.any (fun allowedExt => strEqualFold (filepathExt path) allowedExt)) then
    false
  else
    let relPath := filepathRel config.inputDir path
    if (match excludeRegex with
        | some re => re relPath
        | none => false) then false
    else if (match includeRegex with
        | some re => !(re relPath)
        | none => false) then false
    else true

/-- Rule 1 of the filter, in isolation: the hidden-name rejection. -/
def rejectedHidden (info : FsFileInfo) (config : Config) : Bool :=
  config.excludeHidden && isHidden info.name

/-- Rule 2 of the filter, in isolation: the max-size rejection. -/
def rejectedMaxSize (info : FsFileInfo) (config : Config) : Bool :=
  config.maxFileSize > 0 && info.size > config.maxFileSize

/-- Rule 3 of the filter, in isolation: the min-size rejection. -/
def rejectedMinSize (info : FsFileInfo) (config : Config) : Bool :=
  config.minFileSize > 0 && info.size < config.minFileSize

/-- Rule 4 of the filter, in isolation: the case-insensitive extension
allow-list, vacuously satisfied when the list is empty (stated as the
negation of the source's rejection condition). -/
def extensionAllowed (path : String) (config : Config) : Bool :=
  !(config.extensions.length > 0 &&
    !(config.extensions.any (fun allowedExt => strEqualFold (filepathExt path) allowedExt)))

/-- Rule 5 of the filter, in isolation: the exclude pattern, matched
against the path relative to the input root. -/
def excludeAllowed (path : String) (config : Config)
    (excludeRegex : Option (String → Bool)) : Bool :=
  match excludeRegex with
  | some re => !(re (filepathRel config.inputDir path))
  | none => true

/-- Rule 6 of the filter, in isolation: the include pattern, matched
against the path relative to the input root. -/
def includeAllowed (path : String) (config : Config)
    (includeRegex : Option (String → Bool)) : Bool :=
  match includeRegex with
  | some re => re (filepathRel config.inputDir path)
  | none => true

/-- A filesystem subtree, as `filepath.Walk` observes it.  Directory
entry lists are given in the lexically sorted order in which
`filepath.Walk` visits them (Go sorts the names read from a directory
before recursing). -/
inductive FsTree where
  | file (name : String) (size : Int) (content : String)
  | dir (name : String) (entries : List FsTree)
deriving Repr

/-- The leaf name of a tree node. -/
def FsTree.name : FsTree → String
  | .file n _ _ => n
  | .dir n _ => n

mutual

/-- The `filepath.Walk` callback of `main`, run over a subtree rooted at
the full path `path`: a directory increments the `Directories` counter
and, when `excludeHidden` is set and its leaf name is hidden, returns
`filepath.SkipDir` so that no descent happens; a file that passes
`shouldProcessFile` is appended to the candidate path list.  Returns the
number of directories visited and the candidate paths, in visit order.
Per-entry access errors (`err != nil` in the callback) are not modelled:
the tree is the accessible part of the filesystem. -/
def walkNode (config : Config) (excludeRegex includeRegex : Option (String → Bool)) :
    String → FsTree → Int × List String
  | path, .file name size _ =>
    (0, if shouldProcessFile path ⟨name, size⟩ config excludeRegex includeRegex
        then [path] else [])
  | path, .dir name entries =>
    if config.excludeHidden && isHidden name then (1, [])
    else
      let rest := walkEntries config excludeRegex includeRegex path entries
      (1 + rest.1, rest.2)

/-- Visit the sorted entries of a directory whose full path is `path`. -/
def walkEntries (config : Config) (excludeRegex includeRegex : Option (String → Bool)) :
    String → List FsTree → Int × List String
  | _, [] => (0, [])
  | path, e :: es =>
    let r := walkNode config excludeRegex includeRegex (path ++ "/" ++ e.name) e
    let rest := walkEntries config excludeRegex includeRegex path es
    (r.1 + rest.1, r.2 ++ rest.2)

end

/-- The `size` and `mtime` metadata `os.Stat` yields for a path. -/
structure StatInfo where
  size : Int
  modified : String
deriving Repr, DecidableEq

/-- `processSingleFile(path, baseDir)` from main.go over an explicit
filesystem: `statFs` models `os.Stat` and `readFs` models `os.ReadFile`,
with `none` for a failing call.  The Go function returns a partially
populated `FileInfo` alongside a non-nil error in the failure cases;
every caller discards that record, which the `Except` result models:
an error carries no record. -/
def processSingleFile (statFs : String → Option StatInfo)
    (readFs : String → Option String) (path baseDir : String) :
    Except String FileInfo :=
  match statFs path with
  | none => .error path
  | some st =>
    match readFs path with
    | none => .error path
    | some content =>
      .ok { path := path
            size := st.size
            modified := st.modified
            content := content
            relativePath := getRelativePath path baseDir }

/-- `processFilesSequential(paths, baseDir, ...)` from main.go: ingest
the candidate paths one at a time in order, appending each success and
updating `FilesProcessed`/`TotalBytes`, skipping failures (which only
log).  Progress printing is side-effect-only and not modelled. -/
def processFilesSequential (statFs : String → Option StatInfo)
    (readFs : String → Option String) (baseDir : String) :
    List String → Stats → List FileInfo × Stats
  | [], stats => ([], stats)
  | path :: rest, stats =>
    match processSingleFile statFs readFs path baseDir with
    | .error _ => processFilesSequential statFs readFs baseDir rest stats
    | .ok info =>
      let stats' := { stats with
        filesProcessed := stats.filesProcessed + 1
        totalBytes := stats.totalBytes + info.size }
      let r := processFilesSequential statFs readFs baseDir rest stats'
      (info :: r.1, r.2)

/-- The observable state of `processFilesParallel`'s worker pool:
`pending` is the content of the buffered `fileChan` (FIFO), `working`
the multiset of paths some worker has received but not finished, and
`results` the content of `resultChan` in arrival order.  Failed paths go
to `errorChan`, which only feeds logging, so they leave no trace beyond
disappearing from `working`. -/
structure PoolState where
  pending : List String
  working : List String
  results : List FileInfo
deriving Repr

/-- One scheduler step of the worker pool: a worker receives the next
path from the channel (`claim`), or finishes a claimed path, pushing the
record to `resultChan` on success (`finishOk`) and only an error message
on failure (`finishErr`).  A pool of `W` workers restricts `working` to
at most `W` entries; the relation places no such bound, so its traces
include those of every worker count `W ≥ 1`. -/
inductive PoolStep (statFs : String → Option StatInfo)
    (readFs : String → Option String) (baseDir : String) :
    PoolState → PoolState → Prop
  | claim (p : String) (rest working : List String) (results : List FileInfo) :
      PoolStep statFs readFs baseDir
        ⟨p :: rest, working, results⟩ ⟨rest, p :: working, results⟩
  | finishOk (p : String) (info : FileInfo) (s : PoolState)
      (hmem : p ∈ s.working)
      (hok : processSingleFile statFs readFs p baseDir = .ok info) :
      PoolStep statFs readFs baseDir s
        ⟨s.pending, s.working.erase p, s.results ++ [info]⟩
  | finishErr (p : String) (e : String) (s : PoolState)
      (hmem : p ∈ s.working)
      (herr : processSingleFile statFs readFs p baseDir = .error e) :
      PoolStep statFs readFs baseDir s
        ⟨s.pending, s.working.erase p, s.results⟩

/-- The multiset of records that successful ingestion of the given paths
produces. -/
def ingestSuccesses (statFs : String → Option StatInfo)
    (readFs : String → Option String) (baseDir : String)
    (paths : Multiset String) : Multiset FileInfo :=
  paths.filterMap (fun p => (processSingleFile statFs readFs p baseDir).toOption)

/-- `formatBytes` loop: divide by 1024 until below 1024, tracking the
divisor and the unit index (transcribes the `for` loop in Go; the fuel
of 7 exceeds the depth reachable from any `int64`). -/
def formatBytesLoop : Nat → Int → Int → Nat → Int × Nat
  | 0, _, div, exp => (div, exp)
  | fuel + 1, n, div, exp =>
    if n ≥ 1024 then formatBytesLoop fuel (n / 1024) (div * 1024) (exp + 1)
    else (div, exp)

/-- Round `num / den` (with `den > 0`) to the nearest integer, ties to
even: the rounding Go's `%.1f` formatting applies to the exact
quotient. -/
def roundHalfEven (num den : Int) : Int :=
  let q := num / den
  let r := num % den
  if 2 * r > den then q + 1
  else if 2 * r < den then q
  else if q % 2 = 0 then q else q + 1

/-- `formatBytes(bytes)` from main.go.  Below 1024 this is Go's
`"%d B"` exactly; at and above 1024 Go prints `%.1f` of a `float64`
quotient, modelled here by exact-rational rounding to one decimal. -/
def formatBytes (bytes : Int) : String :=
  if bytes < 1024 then toString bytes ++ " B"
  else
    let de := formatBytesLoop 7 (bytes / 1024) 1024 0
    let tenths := roundHalfEven (bytes * 10) de.1
    let unitChar := (['K', 'M', 'G', 'T', 'P', 'E'].getD de.2 '?')
    toString (tenths / 10) ++ "." ++ toString (tenths % 10) ++ " " ++
      String.mk [unitChar] ++ "B"

/-- Render `Stats.Duration` the way the Go footers do (`%.2f`), from the
hundredths-of-a-second model of that field. -/
def formatDuration (hundredths : Int) : String :=
  let whole := hundredths / 100
  let frac := hundredths % 100
  toString whole ++ "." ++ (if frac < 10 then "0" else "") ++ toString frac

/-- The header string `writeTextOutput` writes (its `Generated`
timestamp is the opaque `now` argument). -/
def textHeader (stats : Stats) (now : String) : String :=
  "Pecel Output\n" ++
  "Generated: " ++ now ++ "\n" ++
  "Files: " ++ toString stats.filesProcessed ++
  " | Directories: " ++ toString stats.directories ++
  " | Total Size: " ++ formatBytes stats.totalBytes ++ "\n\n"

/-- The per-file section string `writeTextOutput` writes. -/
def textSection (info : FileInfo) : String :=
  "\n" ++ strRepeat '=' 80 ++ "\n" ++ info.relativePath ++ "\n" ++
  "Size: " ++ formatBytes info.size ++ " | Modified: " ++ info.modified ++ "\n" ++
  strRepeat '-' 80 ++ "\n" ++
  info.content ++ "\n" ++
  strRepeat '=' 80 ++ "\n"

/-- The footer string `writeTextOutput` writes; `bytesSoFar` is the
running `totalBytes` counter at the moment the footer is built (header
plus sections, not including the footer itself). -/
def textFooter (stats : Stats) (bytesSoFar : Int) : String :=
  "\n\n=== SUMMARY ===\n" ++
  "Files processed: " ++ toString stats.filesProcessed ++ "\n" ++
  "Directories scanned: " ++ toString stats.directories ++ "\n" ++
  "Total input size: " ++ formatBytes stats.totalBytes ++ "\n" ++
  "Output size: " ++ formatBytes bytesSoFar ++ "\n" ++
  "Processing time: " ++ formatDuration stats.durationHundredths ++ " seconds\n"

/-- `writeTextOutput(fileInfos, writer, stats)` from main.go: returns the
byte stream handed to `writer` and the returned `totalBytes` counter,
which accumulates the `n` returned by each buffered `WriteString` —
i.e. the length of each string written, counted before any downstream
compression layer. -/
def writeTextOutput (fileInfos : List FileInfo) (stats : Stats) (now : String) :
    String × Int :=
  let header := textHeader stats now
  let body := String.join (fileInfos.map textSection)
  let bytesBeforeFooter := goLen header + (fileInfos.map (fun i => goLen (textSection i))).sum
  let footer := textFooter stats bytesBeforeFooter
  (header ++ body ++ footer, bytesBeforeFooter + goLen footer)

/-- `writeOutput(fileInfos, outputPath, format, compress, stats)` from
main.go for the default (text) format branch: the file writer is wrapped
in a `gzip.Writer` when `compress` is set, but the renderer's byte
counting happens on the strings it writes into the buffered writer that
feeds that (possibly compressing) layer.  Returns the uncompressed byte
stream the renderer produced and the reported size. -/
def writeOutput (fileInfos : List FileInfo) (compress : Bool) (stats : Stats)
    (now : String) : String × Int :=
  let rendered := writeTextOutput fileInfos stats now
  (rendered.1, rendered.2)

/-- A JSON value, as `encoding/json` produces it for this program's data
(object key order follows Go struct field order). -/
inductive Json where
  | null
  | str (s : String)
  | num (n : Int)
  | boolean (b : Bool)
  | arr (elems : List Json)
  | obj (fields : List (String × Json))
deriving Repr

/-- The JSON object `encoding/json` marshals a `FileInfo` to, following
the struct tags of main.go: `path`, `size`, `modified`,
`content,omitempty` (omitted when the string is empty, its Go zero
value), `relative_path`. -/
def FileInfo.toJson (f : FileInfo) : Json :=
  .obj ([("path", .str f.path), ("size", .num f.size), ("modified", .str f.modified)] ++
    (if f.content = "" then [] else [("content", .str f.content)]) ++
    [("relative_path", .str f.relativePath)])

/-- The document `writeJSONOutput(fileInfos, writer, stats)` encodes: a
`metadata` object and the `files` array.  (`duration_secs` is a
`float64` in Go; it is carried here at the hundredths precision of the
`Stats` model and is consulted by no claim.) -/
def writeJSONOutput (fileInfos : List FileInfo) (stats : Stats) (now : String) :
    Json :=
  .obj [("metadata", .obj [
          ("generated", .str now),
          ("version", .str "0.1.0"),
          ("files_count", .num stats.filesProcessed),
          ("directories", .num stats.directories),
          ("total_size", .num stats.totalBytes),
          ("duration_secs", .num stats.durationHundredths)]),
        ("files", .arr (fileInfos.map FileInfo.toJson))]

/-- Field lookup in a parsed JSON object (`encoding/json` keeps the last
duplicate; the documents this program emits have unique keys, for which
first-match lookup coincides). -/
def jsonField (j : Json) (key : String) : Option Json :=
  match j with
  | .obj fields => fields.lookup key
  | _ => none

/-- What `json.Unmarshal` into a Go `string` field yields from a parsed
object: the field's string value, or the zero value `""` when the field
is absent or not a string. -/
def jsonStrField (j : Json) (key : String) : String :=
  match jsonField j key with
  | some (.str s) => s
  | _ => ""

/-- What `json.Unmarshal` into a Go integer field yields from a parsed
object: the field's numeric value, or the zero value `0` when the field
is absent or not a number. -/
def jsonIntField (j : Json) (key : String) : Int :=
  match jsonField j key with
  | some (.num n) => n
  | _ => 0

/-- `json.Unmarshal` of one file object back into a `FileInfo`. -/
def fileInfoOfJson (j : Json) : FileInfo :=
  { path := jsonStrField j "path"
    size := jsonIntField j "size"
    modified := jsonStrField j "modified"
    content := jsonStrField j "content"
    relativePath := jsonStrField j "relative_path" }

/-- Parsing the `files` array back out of a serialized document. -/
def filesOfJson (j : Json) : List FileInfo :=
  match jsonField j "files" with
  | some (.arr elems) => elems.map fileInfoOfJson
  | _ => []

/-- `validateDirectory(dirPath)` from main.go over an explicit
filesystem: `statKind` models `os.Stat` plus `IsDir`, yielding
`some true` for an existing directory, `some false` for an existing
non-directory, `none` for a failing stat. -/
def validateDirectory (statKind : String → Option Bool) (dirPath : String) :
    Except String Unit :=
  match statKind dirPath with
  | none => .error ("directory does not exist: " ++ dirPath)
  | some false => .error ("path is not a directory: " ++ dirPath)
  | some true => .ok ()

/-- `validateFilePath(filePath)` from main.go: the parent directory
(`filepath.Dir`) must exist and be a directory. -/
def validateFilePath (statKind : String → Option Bool) (filePath : String) :
    Except String Unit :=
  let dir := filepathDir filePath
  match statKind dir with
  | none => .error ("parent directory does not exist: " ++ dir)
  | some false => .error ("parent path is not a directory: " ++ dir)
  | some true => .ok ()

/-- `validateExtensions` from main.go, applied to the already-split
extension list (main joins `config.Extensions` with commas and the
function splits it again; for comma-free entries the composite is the
elementwise check modelled here): each trimmed entry must start with a
dot or be `*`. -/
def validateExtensions (extensions : List String) : Except String Unit :=
  if extensions.all (fun e =>
      let e' := strTrim e
      strHasPrefix "." e' || e' == "*") then .ok ()
  else .error "extension should start with a dot (.) or be '*' for all files"

/-- Compilation of one optional pattern in `main`: an empty pattern
compiles to no matcher, a non-empty one is handed to `regexp.Compile`
(the opaque `compile`), whose failure is fatal. -/
def compilePattern (compile : String → Option (String → Bool))
    (pattern : String) : Except String (Option (String → Bool)) :=
  if pattern = "" then .ok none
  else
    match compile pattern with
    | none => .error ("Invalid pattern: " ++ pattern)
    | some re => .ok (some re)

/-- The result of a completed run: the final statistics and, unless
`dryRun` suppressed writing, the rendered artifact. -/
structure RunOutput where
  stats : Stats
  artifact : Option String

/-- The run skeleton of `main` from the validation block onward, for the
default text format and the sequential strategy (`parallel == 1`; the
`W > 1` strategy is modelled relationally by `PoolStep`, and by
`parallel_matches_sequential_ingested_set` its ingested set coincides):
validate the input directory, the output parent, the extension list,
compile both patterns — each failure calls `os.Exit(1)` before any
walking, ingestion or writing, modelled by the `Except` error — then
walk the input tree collecting candidates, ingest sequentially, and
render unless `dryRun` is set. -/
def runMain (statKind : String → Option Bool)
    (compile : String → Option (String → Bool))
    (statFs : String → Option StatInfo) (readFs : String → Option String)
    (tree : FsTree) (config : Config) (now : String)
    (durationHundredths : Int) : Except String RunOutput :=
  match validateDirectory statKind config.inputDir with
  | .error e => .error e
  | .ok _ =>
  match validateFilePath statKind config.outputFile with
  | .error e => .error e
  | .ok _ =>
  match validateExtensions config.extensions with
  | .error e => .error e
  | .ok _ =>
  match compilePattern compile config.excludePattern with
  | .error e => .error e
  | .ok excludeRegex =>
  match compilePattern compile config.includePattern with
  | .error e => .error e
  | .ok includeRegex =>
    let walked := walkNode config excludeRegex includeRegex config.inputDir tree
    let stats0 : Stats :=
      { filesProcessed := 0, directories := walked.1, totalBytes := 0,
        durationHundredths := durationHundredths, outputSize := 0 }
    let processed := processFilesSequential statFs readFs config.inputDir walked.2 stats0
    if config.dryRun then
      .ok { stats := processed.2, artifact := none }
    else
      let written := writeOutput processed.1 config.compress processed.2 now
      .ok { stats := { processed.2 with outputSize := written.2 },
            artifact := some written.1 }

/-! ## Helper lemmas -/

theorem processFilesSequential_fst (statFs : String → Option StatInfo)
    (readFs : String → Option String) (baseDir : String) (paths : List String)
    (stats : Stats) :
    (processFilesSequential statFs readFs baseDir paths stats).1 =
      paths.filterMap (fun p => (processSingleFile statFs readFs p baseDir).toOption) := by
  induction paths generalizing stats with
  | nil => rfl
  | cons p rest ih =>
    unfold processFilesSequential
    cases h : processSingleFile statFs readFs p baseDir with
    | error e => simp [h, Except.toOption, ih]
    | ok info => simp [h, Except.toOption, ih]

/-! ## C4: sequential ingestion order and determinism -/

/-- C4: sequential ingestion (the `W == 1` strategy) processes the
candidate paths one at a time in discovery order and its result list is
exactly the in-order sequence of successful ingestions — each success is
appended in input order, each failure is skipped and the run continues —
so the result is `paths.filterMap` of the ingestor.  Being an equation
of a pure function of the file-set model, it also gives determinism:
two runs over the same file set yield identical result ordering and
record content. -/
theorem sequential_results_follow_discovery_order
    (statFs : String → Option StatInfo) (readFs : String → Option String)
    (baseDir : String) (paths : List String) (stats stats' : Stats) :
    (processFilesSequential statFs readFs baseDir paths stats).1 =
      paths.filterMap (fun p => (processSingleFile statFs readFs p baseDir).toOption) ∧
    (processFilesSequential statFs readFs baseDir paths stats).1 =
      (processFilesSequential statFs readFs baseDir paths stats').1 := by
  constructor
  · exact processFilesSequential_fst statFs readFs baseDir paths stats
  · rw [processFilesSequential_fst, processFilesSequential_fst]

/-! ## C5: ingestion failures produce no record and do not stop the run -/

/-- C5: an ingestion that fails at the stat stage or at the content-read
stage yields an error and no record; the sequential pipeline then emits
nothing for that path — the result list, `FilesProcessed` and
`TotalBytes` are exactly those of the run over the remaining paths, and
processing continues with them. -/
theorem ingest_failure_yields_no_record
    (statFs : String → Option StatInfo) (readFs : String → Option String) :
    (∀ p baseDir, statFs p = none →
      ∃ e, processSingleFile statFs readFs p baseDir = .error e) ∧
    (∀ p baseDir st, statFs p = some st → readFs p = none →
      ∃ e, processSingleFile statFs readFs p baseDir = .error e) ∧
    (∀ baseDir p rest stats e,
      processSingleFile statFs readFs p baseDir = .error e →
      processFilesSequential statFs readFs baseDir (p :: rest) stats =
        processFilesSequential statFs readFs baseDir rest stats) := by
  refine ⟨?_, ?_, ?_⟩
  · intro p baseDir h
    exact ⟨p, by simp [processSingleFile, h]⟩
  · intro p baseDir st hstat hread
    exact ⟨p, by simp [processSingleFile, hstat, hread]⟩
  · intro baseDir p rest stats e h
    conv_lhs => rw [processFilesSequential.eq_def]
    simp [h]

/-- Closed witness for `ingest_failure_yields_no_record`. -/
theorem ingest_failure_yields_no_record_witness :
    (∃ e, processSingleFile (fun _ => none) (fun _ => some "x") "a" "r" = .error e) ∧
    (∃ e, processSingleFile (fun _ => some ⟨1, "t"⟩) (fun _ => none) "a" "r" = .error e) ∧
    processFilesSequential (fun _ => none) (fun _ => some "x") "r" ["a", "b"]
        ⟨0, 0, 0, 0, 0⟩ =
      processFilesSequential (fun _ => none) (fun _ => some "x") "r" ["b"]
        ⟨0, 0, 0, 0, 0⟩ := by
  refine ⟨?_, ?_, ?_⟩
  · exact (ingest_failure_yields_no_record (fun _ => none) (fun _ => some "x")).1
      "a" "r" rfl
  · exact (ingest_failure_yields_no_record (fun _ => some ⟨1, "t"⟩) (fun _ => none)).2.1
      "a" "r" ⟨1, "t"⟩ rfl rfl
  · exact (ingest_failure_yields_no_record (fun _ => none) (fun _ => some "x")).2.2
      "r" "a" ["b"] ⟨0, 0, 0, 0, 0⟩ "a" rfl

/-! ## C2: the filter's rules, their order, and its boundaries -/

/-- A benign configuration for the concrete filter boundaries: root `r`,
allow-list `[".go"]`, hidden exclusion on, no size bounds, no
patterns. -/
def filterDemoConfig : Config :=
  { inputDir := "r", outputFile := "out.txt", extensions := [".go"],
    excludeHidden := true, maxFileSize := 0, minFileSize := 0,
    excludePattern := "", includePattern := "", outputFormat := "text",
    compress := false, parallel := 1, dryRun := false }

/-- C2: `shouldProcessFile` is the short-circuit conjunction of its six
rules in the fixed order hidden, max-size, min-size, extension
allow-list, exclude pattern, include pattern; a leaf name starting with
`.`, or with `~` at length above one byte, is rejected whenever
`excludeHidden` is set; a file larger than a positive `maxSize` or
smaller than a positive `minSize` is rejected; a zero-byte file passes
with `minSize = 0` and is rejected with `minSize = 1`; and the extension
comparison is case-insensitive (`.GO` matches the allow-list entry
`.go`). -/
theorem shouldProcessFile_rule_order :
    (∀ path info config er ir,
      shouldProcessFile path info config er ir =
        (!rejectedHidden info config && !rejectedMaxSize info config &&
         !rejectedMinSize info config && extensionAllowed path config &&
         excludeAllowed path config er && includeAllowed path config ir)) ∧
    (∀ path info config er ir, config.excludeHidden = true →
      (strHasPrefix "." info.name = true ∨
        (strHasPrefix "~" info.name = true ∧ goLen info.name > 1)) →
      shouldProcessFile path info config er ir = false) ∧
    (∀ path info config er ir, config.maxFileSize > 0 →
      info.size > config.maxFileSize →
      shouldProcessFile path info config er ir = false) ∧
    (∀ path info config er ir, config.minFileSize > 0 →
      info.size < config.minFileSize →
      shouldProcessFile path info config er ir = false) ∧
    shouldProcessFile "r/zero.go" ⟨"zero.go", 0⟩ filterDemoConfig none none = true ∧
    shouldProcessFile "r/zero.go" ⟨"zero.go", 0⟩
      { filterDemoConfig with minFileSize := 1 } none none = false ∧
    shouldProcessFile "r/UP.GO" ⟨"UP.GO", 5⟩ filterDemoConfig none none = true := by
  refine ⟨?_, ?_, ?_, ?_, by decide, by decide, by decide⟩
  · intro path info config er ir
    simp only [shouldProcessFile, rejectedHidden, rejectedMaxSize, rejectedMinSize,
      extensionAllowed, excludeAllowed, includeAllowed]
    rcases er with _ | re1 <;> rcases ir with _ | re2 <;>
    cases h1 : (config.excludeHidden && isHidden info.name) <;>
    cases h2 : (config.maxFileSize > 0 && info.size > config.maxFileSize : Bool) <;>
    cases h3 : (config.minFileSize > 0 && info.size < config.minFileSize : Bool) <;>
    cases h4 : (config.extensions.length > 0 &&
      !(config.extensions.any fun allowedExt =>
        strEqualFold (filepathExt path) allowedExt) : Bool) <;>
    simp [h1, h2, h3, h4]
  · intro path info config er ir hex hname
    have hh : isHidden info.name = true := by
      unfold isHidden
      rcases hname with h | ⟨h1, h2⟩
      · simp [h]
      · simp [h1, h2]
    simp [shouldProcessFile, hex, hh]
  · intro path info config er ir h1 h2
    unfold shouldProcessFile
    have : (config.maxFileSize > 0 && info.size > config.maxFileSize) = true := by
      simp [h1, h2]
    split
    · rfl
    · simp [this]
  · intro path info config er ir h1 h2
    unfold shouldProcessFile
    have : (config.minFileSize > 0 && info.size < config.minFileSize) = true := by
      simp [h1, h2]
    split
    · rfl
    · split
      · rfl
      · simp [this]

/-- Closed witness for `shouldProcessFile_rule_order`. -/
theorem shouldProcessFile_rule_order_witness :
    shouldProcessFile "r/.env" ⟨".env", 3⟩ filterDemoConfig none none = false ∧
    shouldProcessFile "r/big.go" ⟨"big.go", 10⟩
      { filterDemoConfig with maxFileSize := 5 } none none = false ∧
    shouldProcessFile "r/small.go" ⟨"small.go", 2⟩
      { filterDemoConfig with minFileSize := 5 } none none = false := by
  refine ⟨?_, ?_, ?_⟩
  · exact shouldProcessFile_rule_order.2.1 "r/.env" ⟨".env", 3⟩ filterDemoConfig
      none none rfl (Or.inl (by decide))
  · exact shouldProcessFile_rule_order.2.2.1 "r/big.go" ⟨"big.go", 10⟩
      { filterDemoConfig with maxFileSize := 5 } none none (by decide) (by decide)
  · exact shouldProcessFile_rule_order.2.2.2.1 "r/small.go" ⟨"small.go", 2⟩
      { filterDemoConfig with minFileSize := 5 } none none (by decide) (by decide)

/-! ## C6 and C10: hidden-directory pruning and the directory counter -/

/-- The spec's walk scenario: root `root` containing `a.go` (50 bytes),
`.hidden/b.go` (50 bytes) and `c.txt` (50 bytes), entries listed in the
sorted order `filepath.Walk` visits them. -/
def scenarioTree : FsTree :=
  .dir "root"
    [ .dir ".hidden" [.file "b.go" 50 "package b"],
      .file "a.go" 50 "package a",
      .file "c.txt" 50 "notes" ]

/-- The scenario configuration: `excludeHidden = true`,
`extensions = [".go"]`, no other filters. -/
def scenarioConfig : Config :=
  { inputDir := "root", outputFile := "out.txt", extensions := [".go"],
    excludeHidden := true, maxFileSize := 0, minFileSize := 0,
    excludePattern := "", includePattern := "", outputFormat := "text",
    compress := false, parallel := 1, dryRun := false }

/-- C6: with `excludeHidden` set, a directory whose leaf name is hidden
is pruned whole — the walk yields no candidate file from anywhere under
it — and in the spec's scenario (`a.go`, `.hidden/b.go`, `c.txt` with
the `.go` allow-list) the candidate set is exactly `{root/a.go}`. -/
theorem walk_prunes_hidden_subtree :
    (∀ config er ir path name entries, config.excludeHidden = true →
      isHidden name = true →
      (walkNode config er ir path (.dir name entries)).2 = []) ∧
    (walkNode scenarioConfig none none "root" scenarioTree).2 = ["root/a.go"] := by
  constructor
  · intro config er ir path name entries h1 h2
    unfold walkNode
    simp [h1, h2]
  · decide

/-- Closed witness for `walk_prunes_hidden_subtree`. -/
theorem walk_prunes_hidden_subtree_witness :
    (walkNode scenarioConfig none none "root"
      (.dir ".cache" [.file "x.go" 1 "x", .dir "sub" [.file "y.go" 2 "y"]])).2 = [] :=
  walk_prunes_hidden_subtree.1 scenarioConfig none none "root" ".cache"
    [.file "x.go" 1 "x", .dir "sub" [.file "y.go" 2 "y"]] rfl (by decide)

/-- C10: a hidden directory encountered with `excludeHidden` set still
counts in the `Directories` statistic — the counter is incremented
before the prune check — so pruned hidden directories are included in
the count: the spec scenario reports 2 directories (the root and the
pruned `.hidden`). -/
theorem walk_counts_pruned_hidden_directory :
    (∀ config er ir path name entries, config.excludeHidden = true →
      isHidden name = true →
      (walkNode config er ir path (.dir name entries)).1 = 1) ∧
    (walkNode scenarioConfig none none "root" scenarioTree).1 = 2 := by
  constructor
  · intro config er ir path name entries h1 h2
    unfold walkNode
    simp [h1, h2]
  · decide

/-- Closed witness for `walk_counts_pruned_hidden_directory`. -/
theorem walk_counts_pruned_hidden_directory_witness :
    (walkNode scenarioConfig none none "root"
      (.dir "~backup" [.file "z.go" 1 "z"])).1 = 1 :=
  walk_counts_pruned_hidden_directory.1 scenarioConfig none none "root" "~backup"
    [.file "z.go" 1 "z"] rfl (by decide)

/-! ## C9: JSON round trip -/

theorem fileInfoOfJson_toJson (r : FileInfo) :
    fileInfoOfJson (FileInfo.toJson r) = r := by
  rcases r with ⟨p, sz, m, c, rp⟩
  by_cases hc : c = ""
  · subst hc
    rfl
  · simp only [FileInfo.toJson, hc, if_false]
    rfl

/-- C9: serializing a record set with the JSON writer and parsing the
resulting document back yields, for every record, the original
`relativePath`, `sizeBytes` and `content` (an empty content string is
omitted by `omitempty` and decodes back to the Go zero value, the same
empty string). -/
theorem json_round_trip_preserves_records (records : List FileInfo)
    (stats : Stats) (now : String) :
    (filesOfJson (writeJSONOutput records stats now)).map
        (fun r => (r.relativePath, r.size, r.content)) =
      records.map (fun r => (r.relativePath, r.size, r.content)) := by
  have hfiles : filesOfJson (writeJSONOutput records stats now) =
      (records.map FileInfo.toJson).map fileInfoOfJson := rfl
  rw [hfiles, List.map_map, List.map_map]
  apply List.map_congr_left
  intro r _
  simp [Function.comp, fileInfoOfJson_toJson r]

/-! ## C1: the reported output size versus compression -/

theorem goLen_append (a b : String) : goLen (a ++ b) = goLen a + goLen b := by
  rcases a with ⟨da⟩
  rcases b with ⟨db⟩
  simp [goLen, String.append]

theorem goLen_foldl_append (l : List String) (acc : String) :
    goLen (l.foldl (· ++ ·) acc) = goLen acc + (l.map goLen).sum := by
  induction l generalizing acc with
  | nil => simp
  | cons s rest ih =>
    simp [ih, goLen_append]
    ring

theorem goLen_join (l : List String) : goLen (String.join l) = (l.map goLen).sum := by
  have h : String.join l = l.foldl (· ++ ·) "" := rfl
  rw [h, goLen_foldl_append]
  simp [goLen]

/-- C1 evaluation: the size `writeOutput` reports is the byte length of
the UNCOMPRESSED stream the renderer produced, and it is the same value
whether or not gzip compression is enabled — the byte counter sums the
`WriteString` return values taken before the compression layer, so the
reported `outputSize` never reflects bytes written to the compressed
stream and cannot shrink when gzip is enabled. -/
theorem writeOutput_reports_precompression_size :
    (∀ fileInfos stats now compress,
      (writeOutput fileInfos compress stats now).2 =
        goLen (writeOutput fileInfos compress stats now).1) ∧
    (∀ fileInfos stats now,
      (writeOutput fileInfos true stats now).2 =
        (writeOutput fileInfos false stats now).2 ∧
      (writeOutput fileInfos true stats now).1 =
        (writeOutput fileInfos false stats now).1) := by
  constructor
  · intro fileInfos stats now compress
    simp only [writeOutput, writeTextOutput]
    rw [goLen_append, goLen_append, goLen_join, List.map_map]
    simp only [Function.comp_def]
  · intro fileInfos stats now
    exact ⟨rfl, rfl⟩

/-! ## C3: parallel ingestion yields the same set as sequential -/

/-- The collector invariant of the worker pool: the records already
collected plus the future successes of the paths still queued or in
flight are, as a multiset, exactly the successes of the original
candidate list. -/
def poolInvariant (statFs : String → Option StatInfo)
    (readFs : String → Option String) (baseDir : String)
    (paths0 : List String) (s : PoolState) : Prop :=
  (s.results : Multiset FileInfo) +
      ingestSuccesses statFs readFs baseDir
        ((s.pending : Multiset String) + (s.working : Multiset String)) =
    ingestSuccesses statFs readFs baseDir (paths0 : Multiset String)

theorem poolStep_preserves_invariant {statFs : String → Option StatInfo}
    {readFs : String → Option String} {baseDir : String} {paths0 : List String}
    {s t : PoolState} (h : PoolStep statFs readFs baseDir s t)
    (hinv : poolInvariant statFs readFs baseDir paths0 s) :
    poolInvariant statFs readFs baseDir paths0 t := by
  cases h with
  | claim p rest working results =>
    unfold poolInvariant at hinv ⊢
    have hmul : ((rest : Multiset String) + ((p :: working : List String) : Multiset String)) =
        (((p :: rest : List String) : Multiset String) + (working : Multiset String)) := by
      rw [← Multiset.cons_coe, ← Multiset.cons_coe, Multiset.add_cons, Multiset.cons_add]
    simpa [hmul] using hinv
  | finishOk p info s hmem hok =>
    unfold poolInvariant at hinv ⊢
    dsimp only
    have hw : (s.working : Multiset String) =
        p ::ₘ ((s.working.erase p : List String) : Multiset String) := by
      rw [Multiset.cons_coe]
      exact Multiset.coe_eq_coe.mpr (List.perm_cons_erase hmem)
    have hf : (processSingleFile statFs readFs p baseDir).toOption = some info := by
      rw [hok]
      rfl
    rw [hw, Multiset.add_cons] at hinv
    unfold ingestSuccesses at hinv ⊢
    have hstep : Multiset.filterMap
        (fun q => (processSingleFile statFs readFs q baseDir).toOption)
        (p ::ₘ ((s.pending : Multiset String) +
          ((s.working.erase p : List String) : Multiset String))) =
      info ::ₘ Multiset.filterMap
        (fun q => (processSingleFile statFs readFs q baseDir).toOption)
        ((s.pending : Multiset String) +
          ((s.working.erase p : List String) : Multiset String)) :=
      Multiset.filterMap_cons_some _ _ _ hf
    rw [hstep] at hinv
    have hres : ((s.results ++ [info] : List FileInfo) : Multiset FileInfo) =
        (s.results : Multiset FileInfo) + {info} := rfl
    rw [hres, ← hinv, ← Multiset.singleton_add, add_assoc]
  | finishErr p e s hmem herr =>
    unfold poolInvariant at hinv ⊢
    dsimp only
    have hw : (s.working : Multiset String) =
        p ::ₘ ((s.working.erase p : List String) : Multiset String) := by
      rw [Multiset.cons_coe]
      exact Multiset.coe_eq_coe.mpr (List.perm_cons_erase hmem)
    have hf : (processSingleFile statFs readFs p baseDir).toOption = none := by
      rw [herr]
      rfl
    rw [hw, Multiset.add_cons] at hinv
    unfold ingestSuccesses at hinv ⊢
    have hstep : Multiset.filterMap
        (fun q => (processSingleFile statFs readFs q baseDir).toOption)
        (p ::ₘ ((s.pending : Multiset String) +
          ((s.working.erase p : List String) : Multiset String))) =
      Multiset.filterMap
        (fun q => (processSingleFile statFs readFs q baseDir).toOption)
        ((s.pending : Multiset String) +
          ((s.working.erase p : List String) : Multiset String)) :=
      Multiset.filterMap_cons_none _ _ hf
    rw [hstep] at hinv
    exact hinv

theorem poolTrace_invariant {statFs : String → Option StatInfo}
    {readFs : String → Option String} {baseDir : String} {paths : List String}
    {s : PoolState}
    (htrace : Relation.ReflTransGen (PoolStep statFs readFs baseDir)
      ⟨paths, [], []⟩ s) :
    poolInvariant statFs readFs baseDir paths s := by
  induction htrace with
  | refl =>
    unfold poolInvariant
    simp
  | tail _ hstep ih => exact poolStep_preserves_invariant hstep ih

/-- C3: however the worker pool interleaves (any worker count `W ≥ 1`
gives a subset of these traces), a completed parallel run — work queue
drained and no path in flight — has ingested exactly the same set of
paths as the sequential strategy over the same candidate list and file
set: membership never changes, only order. -/
theorem parallel_matches_sequential_ingested_set
    (statFs : String → Option StatInfo) (readFs : String → Option String)
    (baseDir : String) (paths : List String) (s : PoolState) (stats : Stats)
    (htrace : Relation.ReflTransGen (PoolStep statFs readFs baseDir)
      ⟨paths, [], []⟩ s)
    (hpending : s.pending = []) (hworking : s.working = []) :
    ∀ q, (∃ info ∈ s.results, info.path = q) ↔
      ∃ info ∈ (processFilesSequential statFs readFs baseDir paths stats).1,
        info.path = q := by
  have hinv := poolTrace_invariant htrace
  unfold poolInvariant at hinv
  rw [hpending, hworking] at hinv
  have hres : (s.results : Multiset FileInfo) =
      ingestSuccesses statFs readFs baseDir (paths : Multiset String) := by
    simpa [ingestSuccesses] using hinv
  have hseq := processFilesSequential_fst statFs readFs baseDir paths stats
  have hmem : ∀ info, info ∈ s.results ↔
      info ∈ paths.filterMap
        (fun p => (processSingleFile statFs readFs p baseDir).toOption) := by
    intro info
    rw [← Multiset.mem_coe, hres]
    unfold ingestSuccesses
    rw [Multiset.filterMap_coe, Multiset.mem_coe]
  intro q
  rw [hseq]
  constructor
  · rintro ⟨info, hin, hp⟩
    exact ⟨info, (hmem info).mp hin, hp⟩
  · rintro ⟨info, hin, hp⟩
    exact ⟨info, (hmem info).mpr hin, hp⟩

/-- A two-file filesystem for exercising the pool model. -/
def poolDemoStat : String → Option StatInfo :=
  fun p => if p = "r/a" then some ⟨1, "ta"⟩
    else if p = "r/b" then some ⟨2, "tb"⟩ else none

/-- Content map of the two-file demo filesystem. -/
def poolDemoRead : String → Option String :=
  fun p => if p = "r/a" then some "A"
    else if p = "r/b" then some "B" else none

/-- The record the demo filesystem yields for `r/a`. -/
def poolDemoInfoA : FileInfo :=
  { path := "r/a", size := 1, modified := "ta", content := "A",
    relativePath := "a" }

/-- The record the demo filesystem yields for `r/b`. -/
def poolDemoInfoB : FileInfo :=
  { path := "r/b", size := 2, modified := "tb", content := "B",
    relativePath := "b" }

/-- Closed witness for `parallel_matches_sequential_ingested_set`: a
completed pool trace that finishes the two files in the opposite of
discovery order still reports the same ingested set as the sequential
strategy. -/
theorem parallel_matches_sequential_ingested_set_witness :
    (∃ info ∈ ([poolDemoInfoB, poolDemoInfoA] : List FileInfo),
        info.path = "r/a") ↔
      ∃ info ∈ (processFilesSequential poolDemoStat poolDemoRead "r"
          ["r/a", "r/b"] ⟨0, 0, 0, 0, 0⟩).1, info.path = "r/a" := by
  have h1 : PoolStep poolDemoStat poolDemoRead "r"
      ⟨["r/a", "r/b"], [], []⟩ ⟨["r/b"], ["r/a"], []⟩ :=
    PoolStep.claim "r/a" ["r/b"] [] []
  have h2 : PoolStep poolDemoStat poolDemoRead "r"
      ⟨["r/b"], ["r/a"], []⟩ ⟨[], ["r/b", "r/a"], []⟩ :=
    PoolStep.claim "r/b" [] ["r/a"] []
  have h3 : PoolStep poolDemoStat poolDemoRead "r"
      ⟨[], ["r/b", "r/a"], []⟩ ⟨[], ["r/a"], [poolDemoInfoB]⟩ :=
    PoolStep.finishOk "r/b" poolDemoInfoB ⟨[], ["r/b", "r/a"], []⟩
      (by decide) rfl
  have h4 : PoolStep poolDemoStat poolDemoRead "r"
      ⟨[], ["r/a"], [poolDemoInfoB]⟩ ⟨[], [], [poolDemoInfoB, poolDemoInfoA]⟩ :=
    PoolStep.finishOk "r/a" poolDemoInfoA ⟨[], ["r/a"], [poolDemoInfoB]⟩
      (by decide) rfl
  have htrace : Relation.ReflTransGen (PoolStep poolDemoStat poolDemoRead "r")
      ⟨["r/a", "r/b"], [], []⟩ ⟨[], [], [poolDemoInfoB, poolDemoInfoA]⟩ :=
    .head h1 (.head h2 (.head h3 (.head h4 .refl)))
  exact parallel_matches_sequential_ingested_set poolDemoStat poolDemoRead "r"
    ["r/a", "r/b"] ⟨[], [], [poolDemoInfoB, poolDemoInfoA]⟩ ⟨0, 0, 0, 0, 0⟩
    htrace rfl rfl "r/a"

/-! ## C7: fatal configuration errors abort before any work -/

/-- C7: if the input root does not stat as an existing directory, the
output file's parent does not stat as an existing directory, or a
non-empty exclude or include pattern fails to compile, the run aborts
with an error — the `os.Exit(1)` paths of `main` — and the error result
carries no statistics and no artifact: no discovery, ingestion or output
writing happens. -/
theorem fatal_config_error_aborts
    (statKind : String → Option Bool) (compile : String → Option (String → Bool))
    (statFs : String → Option StatInfo) (readFs : String → Option String)
    (tree : FsTree) (config : Config) (now : String) (dur : Int)
    (h : statKind config.inputDir ≠ some true ∨
         statKind (filepathDir config.outputFile) ≠ some true ∨
         (config.excludePattern ≠ "" ∧ compile config.excludePattern = none) ∨
         (config.includePattern ≠ "" ∧ compile config.includePattern = none)) :
    ∃ e, runMain statKind compile statFs readFs tree config now dur = .error e := by
  have hdir : ∀ d, statKind d ≠ some true →
      ∃ e, validateDirectory statKind d = .error e := by
    intro d hd
    unfold validateDirectory
    cases hsk : statKind d with
    | none => exact ⟨_, rfl⟩
    | some b =>
      cases b with
      | false => exact ⟨_, rfl⟩
      | true => exact absurd hsk hd
  have hfile : ∀ f, statKind (filepathDir f) ≠ some true →
      ∃ e, validateFilePath statKind f = .error e := by
    intro f hf
    unfold validateFilePath
    dsimp only
    cases hsk : statKind (filepathDir f) with
    | none => exact ⟨_, rfl⟩
    | some b =>
      cases b with
      | false => exact ⟨_, rfl⟩
      | true => exact absurd hsk hf
  have hpat : ∀ pat, pat ≠ "" → compile pat = none →
      ∃ e, compilePattern compile pat = .error e := by
    intro pat hne hnone
    unfold compilePattern
    rw [if_neg hne, hnone]
    exact ⟨_, rfl⟩
  unfold runMain
  cases hv1 : validateDirectory statKind config.inputDir with
  | error e => exact ⟨e, rfl⟩
  | ok u =>
    cases hv2 : validateFilePath statKind config.outputFile with
    | error e => exact ⟨e, rfl⟩
    | ok u2 =>
      cases hv3 : validateExtensions config.extensions with
      | error e => exact ⟨e, rfl⟩
      | ok u3 =>
        cases hv4 : compilePattern compile config.excludePattern with
        | error e => exact ⟨e, rfl⟩
        | ok er =>
          cases hv5 : compilePattern compile config.includePattern with
          | error e => exact ⟨e, rfl⟩
          | ok ir =>
            exfalso
            rcases h with hbad | hbad | ⟨hne, hnone⟩ | ⟨hne, hnone⟩
            · obtain ⟨e, he⟩ := hdir _ hbad
              rw [he] at hv1
              exact Except.noConfusion hv1
            · obtain ⟨e, he⟩ := hfile _ hbad
              rw [he] at hv2
              exact Except.noConfusion hv2
            · obtain ⟨e, he⟩ := hpat _ hne hnone
              rw [he] at hv4
              exact Except.noConfusion hv4
            · obtain ⟨e, he⟩ := hpat _ hne hnone
              rw [he] at hv5
              exact Except.noConfusion hv5

/-- Closed witness for `fatal_config_error_aborts`: a world in which no
path stats at all makes the run abort with an error. -/
theorem fatal_config_error_aborts_witness :
    ∃ e, runMain (fun _ => none) (fun _ => none) (fun _ => none)
      (fun _ => none) (.dir "r" []) filterDemoConfig "now" 0 = .error e :=
  fatal_config_error_aborts (fun _ => none) (fun _ => none) (fun _ => none)
    (fun _ => none) (.dir "r" []) filterDemoConfig "now" 0
    (Or.inl (by simp))

/-! ## C8: an empty input directory yields a valid header-and-footer run -/

theorem walkNode_dir_nil (config : Config)
    (er ir : Option (String → Bool)) (p name : String) :
    walkNode config er ir p (.dir name []) = (1, []) := by
  unfold walkNode
  cases h : config.excludeHidden && isHidden name with
  | false => simp [h, walkEntries]
  | true => simp [h]

theorem string_append_empty (s : String) : s ++ "" = s := by
  rcases s with ⟨d⟩
  show String.mk (d ++ []) = String.mk d
  rw [List.append_nil]

/-- C8: over an input directory with no entries, the run succeeds — no
error — with `FilesProcessed = 0` and `Directories = 1` in the final
statistics, and the text serializer still writes a well-formed artifact
made of exactly the header and the footer (no file sections). -/
theorem empty_directory_run
    (statKind : String → Option Bool) (compile : String → Option (String → Bool))
    (statFs : String → Option StatInfo) (readFs : String → Option String)
    (config : Config) (now : String) (dur : Int) (name : String)
    (h1 : statKind config.inputDir = some true)
    (h2 : statKind (filepathDir config.outputFile) = some true)
    (h3 : validateExtensions config.extensions = .ok ())
    (h4 : config.excludePattern = "") (h5 : config.includePattern = "")
    (h6 : config.dryRun = false) :
    ∃ out, runMain statKind compile statFs readFs (.dir name []) config now dur =
        .ok out ∧
      out.stats.filesProcessed = 0 ∧ out.stats.directories = 1 ∧
      out.artifact = some (textHeader ⟨0, 1, 0, dur, 0⟩ now ++
        textFooter ⟨0, 1, 0, dur, 0⟩ (goLen (textHeader ⟨0, 1, 0, dur, 0⟩ now))) := by
  have hva : validateDirectory statKind config.inputDir = .ok () := by
    unfold validateDirectory
    rw [h1]
  have hvb : validateFilePath statKind config.outputFile = .ok () := by
    unfold validateFilePath
    dsimp only
    rw [h2]
  have hrun : runMain statKind compile statFs readFs (.dir name []) config now dur =
      .ok ⟨⟨0, 1, 0, dur, (writeTextOutput [] ⟨0, 1, 0, dur, 0⟩ now).2⟩,
        some (writeTextOutput [] ⟨0, 1, 0, dur, 0⟩ now).1⟩ := by
    unfold runMain
    rw [hva, hvb, h3, h4, h5]
    rw [show compilePattern compile "" = .ok none from rfl]
    dsimp only
    rw [walkNode_dir_nil, h6]
    rfl
  refine ⟨_, hrun, rfl, rfl, ?_⟩
  show some (writeTextOutput [] ⟨0, 1, 0, dur, 0⟩ now).1 = _
  unfold writeTextOutput
  dsimp only
  rw [show String.join (List.map textSection []) = "" from rfl]
  rw [string_append_empty]
  simp

/-- Closed witness for `empty_directory_run`. -/
theorem empty_directory_run_witness :
    ∃ out, runMain (fun _ => some true) (fun _ => none) (fun _ => none)
        (fun _ => none) (.dir "empty" []) filterDemoConfig "now" 0 = .ok out ∧
      out.stats.filesProcessed = 0 ∧ out.stats.directories = 1 ∧
      out.artifact = some (textHeader ⟨0, 1, 0, 0, 0⟩ "now" ++
        textFooter ⟨0, 1, 0, 0, 0⟩ (goLen (textHeader ⟨0, 1, 0, 0, 0⟩ "now"))) :=
  empty_directory_run (fun _ => some true) (fun _ => none) (fun _ => none)
    (fun _ => none) filterDemoConfig "now" 0 "empty" rfl rfl rfl rfl rfl rfl
